import Mathlib

/-!
Verification development for the handler-dispatch core of the pulp agent
(src/agent/pulp/agent/lib/container.py).

The embedding models the module as pure functions over explicit data:
an INI configuration is an ordered association list of sections, a section an
ordered association list of key/value strings, the descriptor directory a list
of entries carrying a filename and the outcome of parsing the file, and the
python import machinery an environment mapping plugin names and module paths
to the attribute names the loaded modules expose.  Fallible operations return
Except values; the mutable container state is threaded explicitly.
-/

set_option maxHeartbeats 1000000

namespace Pulp

/-- Failures raised while listing, parsing, validating and loading handlers.
Mirrors the exception kinds reachable in container.py: INI parse errors and
schema violations from pulp.common.config, SectionNotFound raised by Typedef,
the import and attribute errors of the python loader, OS errors from the
directory listing, and the KeyError raised by a dict lookup. -/
inductive Err where
  | parseError (msg : String)
  | validationError (msg : String)
  | sectionNotFound (sectionName : String)
  | importError (modName : String)
  | attributeError (modName : String) (attr : String)
  | osError (msg : String)
  | keyError (role : Nat)
deriving DecidableEq

/-- One parsed INI section: ordered (key, value) pairs. -/
abbrev Sect := List (String × String)

/-- One parsed INI configuration: ordered (section name, section) pairs.
Modelled from the spec: pulp.common.config.Config, the generic validated
configuration primitive, is not under src; the spec treats it as a parsed
key/value configuration tree. -/
abbrev Config := List (String × Sect)

/-- First-match association-list lookup, the dict read used throughout. -/
def alookup {α β : Type} [DecidableEq α] (l : List (α × β)) (k : α) : Option β :=
  match l with
  | [] => none
  | p :: t => if p.1 = k then some p.2 else alookup t k

/-- Modelled from the spec: the BOOL field type of pulp.common.config (not
under src); section 6 of the spec documents enabled = true|false and the
validator fails closed on any value that is not boolean. -/
def parseBool (s : String) : Option Bool :=
  if s = "true" ∨ s = "yes" ∨ s = "1" then some true
  else if s = "false" ∨ s = "no" ∨ s = "0" then some false
  else none

-- handler roles (container.py module constants)
def SYSTEM : Nat := 0
def CONTENT : Nat := 1
def BIND : Nat := 2

/-- ROLE_PROPERTY from container.py: (role, property-name) pairs. -/
def ROLE_PROPERTY : List (Nat × String) :=
  [(SYSTEM, "system"), (CONTENT, "content"), (BIND, "bind")]

/-- ROLES from container.py. -/
def ROLES : List Nat := ROLE_PROPERTY.map Prod.fst

/-- Modelled from the spec: pulp.common.config.Validator applied to
Descriptor.SCHEMA (the validator is not under src).  The schema requires a
main section whose enabled field is a boolean, and a types section; the three
fields permitted under types are optional, so the types section itself is
unconstrained beyond being present.  Sections not named by the schema are not
inspected. -/
def validateDescriptor (cfg : Config) : Except Err Unit :=
  match alookup cfg "main" with
  | none => .error (.validationError "main")
  | some mainSec =>
    match alookup mainSec "enabled" with
    | none => .error (.validationError "main.enabled")
    | some v =>
      match parseBool v with
      | none => .error (.validationError "main.enabled")
      | some _ =>
        match alookup cfg "types" with
        | none => .error (.validationError "types")
        | some _ => .ok ()

/-- Descriptor: the content unit name together with its raw INI configuration
(container.py class Descriptor). -/
structure Descriptor where
  name : String
  cfg : Config
deriving DecidableEq

/-- Descriptor.__init__: parse the file and validate the configuration against
SCHEMA; any failure is raised to the caller. -/
def Descriptor.make (name : String) (parsed : Except Err Config) : Except Err Descriptor :=
  match parsed with
  | .error e => .error e
  | .ok cfg =>
    match validateDescriptor cfg with
    | .error e => .error e
    | .ok _ => .ok ⟨name, cfg⟩

/-- Descriptor.enabled: the validated main.enabled value (validation
guarantees the field is present and boolean). -/
def Descriptor.enabled (d : Descriptor) : Bool :=
  match alookup ((alookup d.cfg "main").getD []) "enabled" with
  | none => false
  | some v => (parseBool v).getD false

/-- Split a character list at every occurrence of sep (python str.split with
a separator argument: no merging, an empty input yields one empty field). -/
def splitCharAux (sep : Char) : List Char → List Char → List (List Char)
  | [], acc => [acc.reverse]
  | c :: t, acc =>
    if c = sep then acc.reverse :: splitCharAux sep t []
    else splitCharAux sep t (c :: acc)

/-- s.split(sep) on strings. -/
def splitOn1 (sep : Char) (s : String) : List String :=
  (splitCharAux sep s.toList []).map String.mk

/-- Python str.strip: drop leading and trailing whitespace. -/
def isWS (c : Char) : Bool := c = ' ' ∨ c = '\t' ∨ c = '\n' ∨ c = '\r'

/-- t.strip() on strings. -/
def trimS (s : String) : String :=
  String.mk (((s.toList.dropWhile isWS).reverse.dropWhile isWS).reverse)

/-- Descriptor.types: for each role whose property name appears in the types
section, split the comma separated value, strip whitespace and drop empties. -/
def Descriptor.types (d : Descriptor) : List (Nat × List String) :=
  let sec := (alookup d.cfg "types").getD []
  ROLE_PROPERTY.filterMap fun rp =>
    match alookup sec rp.2 with
    | none => none
    | some listed =>
      some (rp.1, ((splitOn1 ',' listed).map trimS).filter (fun t => t ≠ ""))

/-- The (role, type_id) pairs a descriptor declares, in the iteration order of
Container.__load: roles in ROLE_PROPERTY order, type ids in listed order. -/
def Descriptor.typePairs (d : Descriptor) : List (Nat × String) :=
  d.types.foldr (fun rt acc => rt.2.map (fun t => (rt.1, t)) ++ acc) []

instance {ε α : Type} [DecidableEq ε] [DecidableEq α] : DecidableEq (Except ε α) := fun x y =>
  match x, y with
  | .error a, .error b =>
    if h : a = b then isTrue (h ▸ rfl) else isFalse (fun he => h (Except.error.inj he))
  | .error _, .ok _ => isFalse (fun he => Except.noConfusion he)
  | .ok _, .error _ => isFalse (fun he => Except.noConfusion he)
  | .ok a, .ok b =>
    if h : a = b then isTrue (h ▸ rfl) else isFalse (fun he => h (Except.ok.inj he))

/-- One file of the descriptor root directory: its name, whether the path is a
directory, and the outcome of parsing it as an INI file (the INI text parser
is the external configuration primitive, so the parse outcome is the input). -/
structure Entry where
  fname : String
  isDir : Bool
  parsed : Except Err Config
deriving DecidableEq

/-- fn.split(".", 1): the part before the first dot and the part after it, or
nothing when the name contains no dot. -/
def splitExt (fn : String) : Option (String × String) :=
  let cs := fn.toList
  if '.' ∈ cs then
    some (String.mk (cs.takeWhile (fun c => c ≠ '.')),
          String.mk ((cs.dropWhile (fun c => c ≠ '.')).drop 1))
  else none

/-- Substring test on character lists (python: needle in haystack). -/
def infixOf (needle : List Char) : List Char → Bool
  | [] => needle.isEmpty
  | c :: t => needle.isPrefixOf (c :: t) || infixOf needle t

/-- Python membership test on strings: needle in hay. -/
def substrB (needle hay : String) : Bool :=
  infixOf needle.toList hay.toList

/-- The filename part of the selection test of Descriptor.__list: the name
splits at a dot and the extension passes the membership test against the
string ".conf". -/
def selectName (fn : String) : Bool :=
  match splitExt fn with
  | none => false
  | some nx => substrB nx.2 ".conf"

/-- The per-file selection of Descriptor.__list: skip names without a dot,
keep the file when the extension is a member of the string ".conf" (the
source writes ext not in (".conf"), a substring test, not an equality test),
and skip directories. -/
def selEntry (e : Entry) : Option (String × Entry) :=
  match splitExt e.fname with
  | none => none
  | some nx =>
    if substrB nx.2 ".conf" then
      if e.isDir then none else some (nx.1, e)
    else none

/-- Lexicographic comparison of character lists by code point, the order
python sorted uses on strings. -/
def charLe : List Char → List Char → Bool
  | [], _ => true
  | _ :: _, [] => false
  | c :: cs, d :: ds =>
    if c.toNat < d.toNat then true
    else if d.toNat < c.toNat then false
    else charLe cs ds

/-- String comparison by code points (python str order). -/
def strLe (a b : String) : Bool := charLe a.toList b.toList

/-- Stable insertion of an entry into a filename-sorted list. -/
def insertEntry (e : Entry) : List Entry → List Entry
  | [] => [e]
  | f :: fs => if strLe e.fname f.fname then e :: f :: fs else f :: insertEntry e fs

/-- sorted(files) of Descriptor.__list: stable sort by filename. -/
def sortEntries : List Entry → List Entry
  | [] => []
  | e :: es => insertEntry e (sortEntries es)

/-- Descriptor.__list: enumerate the directory in sorted filename order and
yield (stem, file) for every selected descriptor file. -/
def Descriptor.scan (entries : List Entry) : List (String × Entry) :=
  (sortEntries entries).filterMap selEntry

/-- The per-file body of Descriptor.list: construct and validate the
descriptor, skipping (with only a log line) files that fail, and skipping
disabled descriptors. -/
def buildDesc1 (ne : String × Entry) : Option (String × Descriptor) :=
  match Descriptor.make ne.1 ne.2.parsed with
  | .error _ => none
  | .ok d => if d.enabled then some (ne.1, d) else none

/-- The loop of Descriptor.list over the selected files. -/
def buildDescs (files : List (String × Entry)) : List (String × Descriptor) :=
  files.filterMap buildDesc1

/-- Descriptor.list: the enabled, validated descriptors of a directory, in
sorted filename order. -/
def Descriptor.list (entries : List Entry) : List (String × Descriptor) :=
  buildDescs (Descriptor.scan entries)

/-- A python module: its (possibly mangled) name and the attribute names it
exposes. -/
structure Module where
  modName : String
  attrs : List String
deriving DecidableEq

/-- The python environment seen by the loader: plugin maps a descriptor name
to the attributes of the module file found in the handler directories (none
when no directory contains the file), and pymods maps an importable module
path to the attributes of that module. -/
structure Env where
  plugin : List (String × List String)
  pymods : List (String × List String)
deriving DecidableEq

/-- Container.__mangled: the module name with a suffix derived from a hash of
the name; the concrete python hash value is abstracted as a fixed tag. -/
def mangled (name : String) : String := name ++ "_x"

/-- Container.__find_module followed by imp.load_source in
Container.__load_module: the module from the first handler directory holding
a source file named after the descriptor, loaded under the mangled name. -/
def Container.loadModule (env : Env) (name : String) : Option Module :=
  (alookup env.plugin name).map (fun attrs => ⟨mangled name, attrs⟩)

/-- path.rsplit(".", 1)[0]: everything before the last dot, or the whole
string when there is no dot. -/
def modHead (path : String) : String :=
  match (splitOn1 '.' path).dropLast with
  | [] => path
  | parts => String.intercalate "." parts

/-- path.rsplit(".")[-1]: everything after the last dot, or the whole string
when there is no dot. -/
def leafOf (path : String) : String :=
  ((splitOn1 '.' path).getLast?).getD path

/-- Container.__import_module: import the package-qualified reference and
return the leaf module. -/
def Container.importModule (env : Env) (path : String) : Except Err Module :=
  let head := modHead path
  match alookup env.pymods head with
  | none => .error (.importError head)
  | some attrs => .ok ⟨head, attrs⟩

/-- getattr(mod, attr): the class named attr of the module, or an attribute
error. -/
def getattrE (m : Module) (a : String) : Except Err (String × String) :=
  if a ∈ m.attrs then .ok (m.modName, a) else .error (.attributeError m.modName a)

/-- A constructed handler: the module and class it was instantiated from and
the type-specific configuration section passed to the constructor. -/
structure Handler where
  modName : String
  clsName : String
  cfg : Sect
deriving DecidableEq

/-- Typedef.__init__: filter the descriptor configuration to the named
section; an absent section raises SectionNotFound, a present section must
hold the required class field. -/
def Typedef.make (cfg : Config) (sectionName : String) : Except Err Sect :=
  match alookup cfg sectionName with
  | none => .error (.sectionNotFound sectionName)
  | some s =>
    match alookup s "class" with
    | none => .error (.validationError (sectionName ++ ".class"))
    | some _ => .ok s

/-- typedef.cfg["class"]: the implementation reference of a validated typedef
section. -/
def classOf (s : Sect) : String := (alookup s "class").getD ""

/-- The loop body of Container.__load over the declared (role, type_id)
pairs: build the typedef, resolve the module (reusing the one at hand,
else importing the class reference and keeping the result in mod), fetch
the class and construct the handler; the first failure stops the descriptor and is
returned.  Yields the registrations in order, the final mod, and the
failure if any. -/
def Container.runPairs (env : Env) (cfg : Config) :
    Option Module → List (Nat × String) →
    List ((Nat × String) × Handler) × Option Module × Option Err
  | mod, [] => ([], mod, none)
  | mod, rt :: rest =>
    match Typedef.make cfg rt.2 with
    | .error e => ([], mod, some e)
    | .ok tcfg =>
      let path := classOf tcfg
      let mres : Except Err Module :=
        match mod with
        | some m => .ok m
        | none => Container.importModule env path
      match mres with
      | .error e => ([], mod, some e)
      | .ok m =>
        match getattrE m (leafOf path) with
        | .error e => ([], some m, some e)
        | .ok cls =>
          let h : Handler := ⟨cls.1, cls.2, tcfg⟩
          let r := Container.runPairs env cfg (some m) rest
          ((rt, h) :: r.1, r.2)

/-- Container.__load for one descriptor, as the pure data it produces: the
(role, type_id) registrations made before any failure, and the failure that
ended the descriptor, if any. -/
def Container.loadDesc (env : Env) (nd : String × Descriptor) :
    List ((Nat × String) × Handler) × Option Err :=
  let mod := Container.loadModule env nd.1
  let r := Container.runPairs env nd.2.cfg mod nd.2.typePairs
  (r.1, r.2.2)

/-- The handler table: role keyed map of type_id keyed maps, as ordered
association lists (python dicts preserve insertion order and overwrite in
place). -/
abbrev Handlers := List (Nat × List (String × Handler))

/-- Container state: the handler table and the raised list. -/
structure CState where
  handlers : Handlers
  raised : List Err
deriving DecidableEq

/-- d[k] = v on a type_id dict: overwrite in place or append. -/
def setAssoc (l : List (String × Handler)) (k : String) (v : Handler) :
    List (String × Handler) :=
  match l with
  | [] => [(k, v)]
  | p :: t => if p.1 = k then (k, v) :: t else p :: setAssoc t k v

/-- self.handlers[role][type_id] = handler.  Every role reachable from
Container.__load is a member of ROLES, and reset installs all of ROLES, so
the role dict is always present there; an absent role leaves the table
unchanged here. -/
def setRole (hs : Handlers) (r : Nat) (k : String) (v : Handler) : Handlers :=
  hs.map (fun rm => if rm.1 = r then (rm.1, setAssoc rm.2 k v) else rm)

/-- Apply the registrations of one descriptor to the handler table, in
order. -/
def applyWrites (hs : Handlers) (ws : List ((Nat × String) × Handler)) : Handlers :=
  ws.foldl (fun acc w => setRole acc w.1.1 w.1.2 w.2) hs

/-- Container.__load including its registry and raised effects: make the
registrations that succeeded and append the failure, if any, to raised. -/
def Container.applyDesc (env : Env) (s : CState) (nd : String × Descriptor) : CState :=
  let r := Container.loadDesc env nd
  ⟨applyWrites s.handlers r.1, s.raised ++ r.2.toList⟩

/-- Container.reset: install fresh empty role dicts and an empty raised
list, regardless of the previous state. -/
def Container.resetOf (_s : CState) : CState :=
  ⟨[(SYSTEM, []), (CONTENT, []), (BIND, [])], []⟩

/-- The state Container.reset publishes. -/
def resetState : CState := Container.resetOf ⟨[], []⟩

/-- Container.load on a successfully listed directory: reset, then process
every listed descriptor in order. -/
def Container.loadFrom (env : Env) (s : CState) (entries : List Entry) : CState :=
  (Descriptor.list entries).foldl (Container.applyDesc env) (Container.resetOf s)

/-- Container.load: reset, list the root (a listing failure propagates to the
caller uncaught), and process every listed descriptor. -/
def Container.loadRoot (env : Env) (s : CState) (root : Except Err (List Entry)) :
    Except Err CState :=
  match root with
  | .error e => .error e
  | .ok entries => .ok (Container.loadFrom env s entries)

/-- handlers.get(role, empty dict).get(type_id) on a handler table. -/
def findAt (hs : Handlers) (tid : String) (role : Nat) : Option Handler :=
  match alookup hs role with
  | none => none
  | some m => alookup m tid

/-- Container.find: self.handlers.get(role, empty dict).get(type_id). -/
def Container.find (s : CState) (tid : String) (role : Nat) : Option Handler :=
  findAt s.handlers tid role

/-- The last value registered for a (role, type_id) key in a registration
list, if any. -/
def lastVal : List ((Nat × String) × Handler) → Nat → String → Option Handler
  | [], _, _ => none
  | w :: ws, r, t =>
    match lastVal ws r t with
    | some h => some h
    | none => if w.1 = (r, t) then some w.2 else none

/-- Whether a descriptor file fails INI parsing or schema validation (the
failures Descriptor.list catches and logs). -/
def descFails (b : Entry) : Bool :=
  match b.parsed with
  | .error _ => true
  | .ok cfg =>
    match validateDescriptor cfg with
    | .error _ => true
    | .ok _ => false

/-- The loop of Container.all: self.handlers[role].items() concatenated; an
unknown role raises KeyError. -/
def Container.allH (hs : Handlers) : List Nat → Except Err (List (String × Handler))
  | [] => .ok []
  | r :: rest =>
    match alookup hs r with
    | none => .error (.keyError r)
    | some m => (Container.allH hs rest).map (fun tail => m ++ tail)

/-- Container.all: an empty role list means every role. -/
def Container.all (s : CState) (roles : List Nat) : Except Err (List (String × Handler)) :=
  Container.allH s.handlers (if roles.isEmpty then ROLES else roles)

/-- Container.errors. -/
def Container.errors (s : CState) : List Err := s.raised

/-- The raised entries contributed by a list of descriptors, in processing
order: the bare failure of each failing descriptor. -/
def Container.descErrors (env : Env) : List (String × Descriptor) → List Err
  | [] => []
  | nd :: ds => ((Container.loadDesc env nd).2).toList ++ Container.descErrors env ds

/-- The container states a concurrent reader of the shared registry can
observe while load runs: the prior state, the state right after reset, and
the state after each processed descriptor. -/
def statesFrom (env : Env) : CState → List (String × Descriptor) → List CState
  | s, [] => [s]
  | s, nd :: ds => s :: statesFrom env (Container.applyDesc env s nd) ds

/-- The observable state sequence of one Container.load call. -/
def Container.loadTrace (env : Env) (s0 : CState) (entries : List Entry) : List CState :=
  s0 :: statesFrom env (Container.resetOf s0) (Descriptor.list entries)

/-- The number of descriptors that failed, counted the way claim C2 counts
them: files selected by the directory scan whose parse or schema validation
fails, plus listed descriptors whose handler loading fails. -/
def specFailedCount (env : Env) (entries : List Entry) : Nat :=
  ((Descriptor.scan entries).filter
      (fun ne => match Descriptor.make ne.1 ne.2.parsed with
        | .error _ => true
        | .ok _ => false)).length
    + ((Descriptor.list entries).filter
        (fun nd => ((Container.loadDesc env nd).2).isSome)).length

/-! Concrete scenarios used by the counterexamples and witnesses. -/

/-- An environment with no plugin files and no importable modules. -/
def env0 : Env := ⟨[], []⟩

/-- An arbitrary previously published container state. -/
def sAny : CState := ⟨[(9, [("z", ⟨"m", "C", []⟩)])], [.parseError "old"]⟩

/-- One descriptor declaring two content types whose class references name
distinct modules, with no plugin-directory file. -/
def cfgC1 : Config :=
  [("main", [("enabled", "true")]),
   ("types", [("content", "t1,t2")]),
   ("t1", [("class", "m1.A")]),
   ("t2", [("class", "m2.B")])]

def entriesC1 : List Entry := [⟨"d.conf", false, .ok cfgC1⟩]

def envC1 : Env := ⟨[], [("m1", ["A", "B"]), ("m2", ["B"])]⟩

/-- A directory with a single descriptor file whose INI parse fails. -/
def entriesC2 : List Entry := [⟨"bad.conf", false, .error (.parseError "bad")⟩]

/-- A valid enabled descriptor declaring content type x with no x section. -/
def cfgC3 : Config :=
  [("main", [("enabled", "true")]), ("types", [("content", "x")])]

def entriesC3a : List Entry := [⟨"c.conf", false, .ok cfgC3⟩]

def entriesC3b : List Entry := [⟨"d.conf", false, .ok cfgC3⟩]

/-- One enabled descriptor declaring content type rpm implemented by m.H. -/
def cfgC8 : Config :=
  [("main", [("enabled", "true")]),
   ("types", [("content", "rpm")]),
   ("rpm", [("class", "m.H")])]

def entriesC8 : List Entry := [⟨"p.conf", false, .ok cfgC8⟩]

def envC8 : Env := ⟨[], [("m", ["H"])]⟩

/-- The handler the rpm descriptor constructs. -/
def hC8 : Handler := ⟨"m", "H", [("class", "m.H")]⟩

/-- A descriptor file whose INI parse fails. -/
def badEntry : Entry := ⟨"bad.conf", false, .error (.parseError "bad")⟩

/-- The descriptor listed from entriesC3a. -/
def ndC3 : String × Descriptor := ("c", ⟨"c", cfgC3⟩)

/-- Descriptor a of the collision scenario: content rpm from ma.HA. -/
def cfgC4a : Config :=
  [("main", [("enabled", "true")]),
   ("types", [("content", "rpm")]),
   ("rpm", [("class", "ma.HA")])]

/-- Descriptor b of the collision scenario: content rpm from mb.HB. -/
def cfgC4b : Config :=
  [("main", [("enabled", "true")]),
   ("types", [("content", "rpm")]),
   ("rpm", [("class", "mb.HB")])]

/-- The directory listing deliberately out of order: b.conf before a.conf. -/
def entriesC4 : List Entry :=
  [⟨"b.conf", false, .ok cfgC4b⟩, ⟨"a.conf", false, .ok cfgC4a⟩]

def envC4 : Env := ⟨[], [("ma", ["HA"]), ("mb", ["HB"])]⟩

def ndC4a : String × Descriptor := ("a", ⟨"a", cfgC4a⟩)

def ndC4b : String × Descriptor := ("b", ⟨"b", cfgC4b⟩)

def hC4a : Handler := ⟨"ma", "HA", [("class", "ma.HA")]⟩

def hC4b : Handler := ⟨"mb", "HB", [("class", "mb.HB")]⟩

/-- A descriptor that registers t1 and then fails on t2: the t2 section is
missing. -/
def cfgC10 : Config :=
  [("main", [("enabled", "true")]),
   ("types", [("content", "t1,t2")]),
   ("t1", [("class", "m1.A")])]

def ndC10 : String × Descriptor := ("d", ⟨"d", cfgC10⟩)

/-- The first registrations of the cfgC1 descriptor, used to witness the
module sharing theorem. -/
def wC1a : (Nat × String) × Handler := ((1, "t1"), ⟨"m1", "A", [("class", "m1.A")]⟩)

def wC1b : (Nat × String) × Handler := ((1, "t2"), ⟨"m1", "B", [("class", "m2.B")]⟩)

/-- C1 counterexample: with no plugin-directory file, descriptor d declares
t1 (class m1.A) and t2 (class m2.B); after load the handler registered for t2
was constructed from module m1 — the module imported for t1 and cached in the
mod variable — although the import of the reference of t2 itself resolves to
module m2.  The fallback import is therefore cached at the descriptor level,
not performed independently per type. -/
theorem c1_fallback_cached_counterexample :
    (Container.find (Container.loadFrom envC1 sAny entriesC1) "t2" CONTENT).map
        Handler.modName = some "m1"
    ∧ (Container.importModule envC1 "m2.B").map Module.modName = .ok "m2"
    ∧ some "m1" ≠ some "m2" := by
  refine ⟨by decide, by decide, by decide⟩

/-- C2 counterexample: a directory whose single descriptor file fails INI
parsing.  One descriptor failed by the counting of claim C2 (which includes
parse and schema-validation failures), yet errors() of the completed load is
empty: parse failures are only logged by Descriptor.list, never appended to
the raised list. -/
theorem c2_parse_failures_uncounted_counterexample :
    specFailedCount env0 entriesC2 = 1
    ∧ (Container.errors (Container.loadFrom env0 sAny entriesC2)).length = 0 := by
  refine ⟨by decide, by decide⟩

/-- C3 counterexample: two loads over directories that differ only in the
name of the failing descriptor file (c.conf versus d.conf) produce identical
error logs of length one.  The recorded entry is the bare failure; the
descriptor name is not part of any entry, so the entries are not
(descriptor_name, failure) pairs. -/
theorem c3_no_name_in_errors_counterexample :
    Container.errors (Container.loadFrom env0 sAny entriesC3a)
        = Container.errors (Container.loadFrom env0 sAny entriesC3b)
    ∧ (Descriptor.list entriesC3a).map Prod.fst = ["c"]
    ∧ (Descriptor.list entriesC3b).map Prod.fst = ["d"]
    ∧ (Container.errors (Container.loadFrom env0 sAny entriesC3a)).length = 1 := by
  refine ⟨by decide, by decide, by decide, by decide⟩

/-- C8 counterexample: load publishes no atomic generation swap.  With the
previous generation holding a handler for (CONTENT, rpm) and the next
generation holding one as well, the observable state sequence of load passes
through the reset state, in which find for rpm is absent and the error log is
empty — a state that is neither the complete previous generation nor the
complete next one. -/
theorem c8_no_generation_swap_counterexample :
    (Container.find (Container.loadFrom envC8 sAny entriesC8) "rpm" CONTENT).isSome = true
    ∧ (Container.loadTrace envC8 (Container.loadFrom envC8 sAny entriesC8) entriesC8).get? 1
        = some resetState
    ∧ Container.find resetState "rpm" CONTENT = none
    ∧ (Container.loadTrace envC8 (Container.loadFrom envC8 sAny entriesC8) entriesC8).getLast?
        = some (Container.loadFrom envC8 (Container.loadFrom envC8 sAny entriesC8) entriesC8) := by
  refine ⟨by decide, by decide, by decide, by decide⟩

/-! Association list and handler table lemmas. -/

theorem alookup_setAssoc_self (m : List (String × Handler)) (k : String) (v : Handler) :
    alookup (setAssoc m k v) k = some v := by
  induction m with
  | nil => simp [setAssoc, alookup]
  | cons p t ih =>
    by_cases h : p.1 = k
    · simp [setAssoc, h, alookup]
    · simp [setAssoc, h, alookup, ih]

theorem alookup_setAssoc_ne (m : List (String × Handler)) (k k' : String) (v : Handler)
    (h : k ≠ k') : alookup (setAssoc m k v) k' = alookup m k' := by
  induction m with
  | nil => simp [setAssoc, alookup, h]
  | cons p t ih =>
    by_cases hp : p.1 = k
    · subst hp
      simp [setAssoc, alookup, h]
    · simp [setAssoc, hp, alookup, ih]

theorem alookup_setAssoc_some (m : List (String × Handler)) (k k' : String)
    (v h : Handler) (hs : alookup (setAssoc m k v) k' = some h) :
    (k' = k ∧ h = v) ∨ alookup m k' = some h := by
  by_cases he : k = k'
  · subst he
    rw [alookup_setAssoc_self] at hs
    exact Or.inl ⟨rfl, (Option.some.inj hs).symm⟩
  · rw [alookup_setAssoc_ne m k k' v he] at hs
    exact Or.inr hs

theorem alookup_setRole_eq (hs : Handlers) (r : Nat) (k : String) (v : Handler) :
    alookup (setRole hs r k v) r = (alookup hs r).map (fun m => setAssoc m k v) := by
  induction hs with
  | nil => rfl
  | cons p t ih =>
    simp only [setRole, List.map_cons] at ih ⊢
    by_cases hp : p.1 = r
    · simp [alookup, hp]
    · simp [alookup, hp, ih]

theorem alookup_setRole_ne (hs : Handlers) (r r' : Nat) (k : String) (v : Handler)
    (h : r' ≠ r) : alookup (setRole hs r k v) r' = alookup hs r' := by
  induction hs with
  | nil => rfl
  | cons p t ih =>
    simp only [setRole, List.map_cons] at ih ⊢
    by_cases hp : p.1 = r
    · have hq : p.1 ≠ r' := by rw [hp]; exact Ne.symm h
      simp [alookup, hp, hq, ih, Ne.symm h]
    · by_cases hq : p.1 = r'
      · simp [alookup, hp, hq, h]
      · simp [alookup, hp, hq, ih]

theorem isSome_alookup_setRole (hs : Handlers) (r : Nat) (k : String) (v : Handler)
    (role : Nat) :
    (alookup (setRole hs r k v) role).isSome = (alookup hs role).isSome := by
  by_cases h : role = r
  · subst h
    rw [alookup_setRole_eq]
    cases alookup hs role <;> rfl
  · rw [alookup_setRole_ne hs r role k v h]

theorem findAt_setRole_self (hs : Handlers) (role : Nat) (tid : String) (v : Handler)
    (hp : (alookup hs role).isSome = true) :
    findAt (setRole hs role tid v) tid role = some v := by
  unfold findAt
  rw [alookup_setRole_eq]
  cases hm : alookup hs role with
  | none => rw [hm] at hp; simp at hp
  | some m => simp [alookup_setAssoc_self]

theorem findAt_setRole_ne (hs : Handlers) (role : Nat) (tid : String) (v : Handler)
    (role' : Nat) (tid' : String) (h : (role', tid') ≠ (role, tid)) :
    findAt (setRole hs role tid v) tid' role' = findAt hs tid' role' := by
  unfold findAt
  by_cases hr : role' = role
  · subst hr
    have ht : tid ≠ tid' := by
      intro he
      exact h (by rw [he])
    rw [alookup_setRole_eq]
    cases hm : alookup hs role' with
    | none => rfl
    | some m => simp [alookup_setAssoc_ne m tid tid' v ht]
  · rw [alookup_setRole_ne hs role role' tid v hr]

theorem findAt_setRole_some (hs : Handlers) (r : Nat) (k : String) (v : Handler)
    (role : Nat) (tid : String) (h : Handler)
    (hf : findAt (setRole hs r k v) tid role = some h) :
    (role = r ∧ tid = k ∧ h = v) ∨ findAt hs tid role = some h := by
  by_cases hr : role = r
  · subst hr
    unfold findAt at hf ⊢
    rw [alookup_setRole_eq] at hf
    cases hm : alookup hs role with
    | none => rw [hm] at hf; simp at hf
    | some m =>
      rw [hm] at hf
      simp at hf
      rcases alookup_setAssoc_some m k tid v h hf with ⟨hk, hv⟩ | hold
      · exact Or.inl ⟨rfl, hk, hv⟩
      · exact Or.inr hold
  · rw [findAt_setRole_ne hs r k v role tid (by simp [hr])] at hf
    exact Or.inr hf

/-! Lemmas about applying the registrations of one descriptor. -/

theorem isSome_alookup_applyWrites (hs : Handlers)
    (ws : List ((Nat × String) × Handler)) (role : Nat) :
    (alookup (applyWrites hs ws) role).isSome = (alookup hs role).isSome := by
  induction ws generalizing hs with
  | nil => rfl
  | cons w t ih =>
    show (alookup (applyWrites (setRole hs w.1.1 w.1.2 w.2) t) role).isSome = _
    rw [ih, isSome_alookup_setRole]

theorem findAt_applyWrites_some (hs : Handlers) (ws : List ((Nat × String) × Handler))
    (role : Nat) (tid : String) (h : Handler)
    (hf : findAt (applyWrites hs ws) tid role = some h) :
    ((role, tid), h) ∈ ws ∨ findAt hs tid role = some h := by
  induction ws generalizing hs with
  | nil => exact Or.inr hf
  | cons w t ih =>
    have hf2 : findAt (applyWrites (setRole hs w.1.1 w.1.2 w.2) t) tid role = some h := hf
    rcases ih _ hf2 with hm | hone
    · exact Or.inl (List.mem_cons_of_mem _ hm)
    · rcases findAt_setRole_some _ _ _ _ _ _ _ hone with ⟨h1, h2, h3⟩ | hold
      · subst h1; subst h2; subst h3
        exact Or.inl (List.mem_cons_self _ _)
      · exact Or.inr hold

theorem findAt_applyWrites_nowrite (hs : Handlers)
    (ws : List ((Nat × String) × Handler)) (role : Nat) (tid : String)
    (hnw : ∀ w ∈ ws, w.1 ≠ (role, tid)) :
    findAt (applyWrites hs ws) tid role = findAt hs tid role := by
  induction ws generalizing hs with
  | nil => rfl
  | cons w t ih =>
    have h1 : findAt (applyWrites (setRole hs w.1.1 w.1.2 w.2) t) tid role
        = findAt (setRole hs w.1.1 w.1.2 w.2) tid role :=
      ih _ (fun x hx => hnw x (List.mem_cons_of_mem _ hx))
    have h2 : (role, tid) ≠ (w.1.1, w.1.2) :=
      Ne.symm (hnw w (List.mem_cons_self _ _))
    show findAt (applyWrites (setRole hs w.1.1 w.1.2 w.2) t) tid role = _
    rw [h1, findAt_setRole_ne hs w.1.1 w.1.2 w.2 role tid h2]

theorem lastVal_none (ws : List ((Nat × String) × Handler)) (r : Nat) (t : String)
    (h : lastVal ws r t = none) : ∀ w ∈ ws, w.1 ≠ (r, t) := by
  induction ws with
  | nil => intro w hw; cases hw
  | cons w0 t0 ih =>
    intro w hw
    unfold lastVal at h
    cases hlt : lastVal t0 r t with
    | some h2 => rw [hlt] at h; cases h
    | none =>
      rw [hlt] at h
      rcases List.mem_cons.mp hw with he | hm
      · subst he
        by_cases hc : w.1 = (r, t)
        · rw [if_pos hc] at h; cases h
        · exact hc
      · exact ih hlt w hm

theorem findAt_applyWrites_lastVal (hs : Handlers)
    (ws : List ((Nat × String) × Handler)) (role : Nat) (tid : String) (h : Handler)
    (hl : lastVal ws role tid = some h) (hp : (alookup hs role).isSome = true) :
    findAt (applyWrites hs ws) tid role = some h := by
  induction ws generalizing hs with
  | nil => cases hl
  | cons w t ih =>
    cases hlt : lastVal t role tid with
    | some h2 =>
      have hh : h2 = h := by
        unfold lastVal at hl; rw [hlt] at hl; exact Option.some.inj hl
      subst hh
      exact ih (setRole hs w.1.1 w.1.2 w.2) hlt
        (by rw [isSome_alookup_setRole]; exact hp)
    | none =>
      have hw : w.1 = (role, tid) ∧ w.2 = h := by
        unfold lastVal at hl
        rw [hlt] at hl
        by_cases hc : w.1 = (role, tid)
        · rw [if_pos hc] at hl; exact ⟨hc, Option.some.inj hl⟩
        · rw [if_neg hc] at hl; cases hl
      have hnw := lastVal_none t role tid hlt
      have hr1 : w.1.1 = role := by rw [hw.1]
      have hr2 : w.1.2 = tid := by rw [hw.1]
      show findAt (applyWrites (setRole hs w.1.1 w.1.2 w.2) t) tid role = some h
      rw [findAt_applyWrites_nowrite _ _ _ _ hnw, hr1, hr2, hw.2]
      exact findAt_setRole_self hs role tid h hp

/-! Lemmas about reset and the load fold. -/

theorem resetOf_eq (s : CState) : Container.resetOf s = resetState := rfl

theorem findAt_reset (tid : String) (role : Nat) :
    findAt resetState.handlers tid role = none := by
  unfold findAt resetState Container.resetOf
  simp only [alookup, SYSTEM, CONTENT, BIND]
  split_ifs <;> rfl

theorem isSome_alookup_reset (role : Nat) (h : role ∈ ROLES) :
    (alookup resetState.handlers role).isSome = true := by
  simp only [ROLES, ROLE_PROPERTY, SYSTEM, CONTENT, BIND, List.map_cons, List.map_nil,
    List.mem_cons, List.not_mem_nil, or_false] at h
  rcases h with h | h | h <;> subst h <;> rfl

theorem alookup_reset_none (role : Nat) (h : role ∉ ROLES) :
    alookup resetState.handlers role = none := by
  simp only [ROLES, ROLE_PROPERTY, SYSTEM, CONTENT, BIND, List.map_cons, List.map_nil,
    List.mem_cons, List.not_mem_nil, or_false, not_or] at h
  unfold resetState Container.resetOf
  simp only [alookup, SYSTEM, CONTENT, BIND]
  rw [if_neg (fun he => h.1 he.symm), if_neg (fun he => h.2.1 he.symm),
    if_neg (fun he => h.2.2 he.symm)]

theorem raised_foldl (env : Env) (s : CState) (ds : List (String × Descriptor)) :
    (ds.foldl (Container.applyDesc env) s).raised = s.raised ++ Container.descErrors env ds := by
  induction ds generalizing s with
  | nil => simp [Container.descErrors]
  | cons nd t ih =>
    show (t.foldl (Container.applyDesc env) (Container.applyDesc env s nd)).raised = _
    rw [ih]
    simp [Container.applyDesc, Container.descErrors, List.append_assoc]

theorem handlers_foldl (env : Env) (s : CState) (ds : List (String × Descriptor)) :
    (ds.foldl (Container.applyDesc env) s).handlers
      = ds.foldl (fun hs nd => applyWrites hs (Container.loadDesc env nd).1) s.handlers := by
  induction ds generalizing s with
  | nil => rfl
  | cons nd t ih => exact ih (Container.applyDesc env s nd)

theorem isSome_alookup_foldl (env : Env) (ds : List (String × Descriptor)) (s : CState)
    (role : Nat) :
    (alookup (ds.foldl (Container.applyDesc env) s).handlers role).isSome
      = (alookup s.handlers role).isSome := by
  induction ds generalizing s with
  | nil => rfl
  | cons nd t ih =>
    rw [List.foldl_cons, ih (Container.applyDesc env s nd)]
    exact isSome_alookup_applyWrites s.handlers (Container.loadDesc env nd).1 role

theorem findAt_foldl_some (env : Env) (ds : List (String × Descriptor)) (s : CState)
    (role : Nat) (tid : String) (h : Handler)
    (hf : findAt (ds.foldl (Container.applyDesc env) s).handlers tid role = some h) :
    (∃ nd ∈ ds, ((role, tid), h) ∈ (Container.loadDesc env nd).1)
      ∨ findAt s.handlers tid role = some h := by
  induction ds generalizing s with
  | nil => exact Or.inr hf
  | cons nd t ih =>
    rcases ih (Container.applyDesc env s nd) hf with ⟨nd2, hm, hw⟩ | hone
    · exact Or.inl ⟨nd2, List.mem_cons_of_mem _ hm, hw⟩
    · rcases findAt_applyWrites_some s.handlers _ role tid h hone with hw | hold
      · exact Or.inl ⟨nd, List.mem_cons_self _ _, hw⟩
      · exact Or.inr hold

theorem findAt_foldl_nowrite (env : Env) (ds : List (String × Descriptor)) (s : CState)
    (role : Nat) (tid : String)
    (hnw : ∀ nd ∈ ds, ∀ w ∈ (Container.loadDesc env nd).1, w.1 ≠ (role, tid)) :
    findAt (ds.foldl (Container.applyDesc env) s).handlers tid role
      = findAt s.handlers tid role := by
  induction ds generalizing s with
  | nil => rfl
  | cons nd t ih =>
    rw [List.foldl_cons, ih _ (fun x hx => hnw x (List.mem_cons_of_mem _ hx))]
    exact findAt_applyWrites_nowrite s.handlers _ role tid
      (hnw nd (List.mem_cons_self _ _))

/-! Lemmas about the per-descriptor loading loop. -/

theorem getattrE_ok (m : Module) (a : String) (cls : String × String)
    (h : getattrE m a = .ok cls) : cls.1 = m.modName := by
  unfold getattrE at h
  by_cases hc : a ∈ m.attrs
  · rw [if_pos hc] at h
    cases Except.ok.inj h
    rfl
  · rw [if_neg hc] at h
    cases h

theorem runPairs_keys (env : Env) (cfg : Config) (mod : Option Module)
    (pairs : List (Nat × String)) :
    ((Container.runPairs env cfg mod pairs).1.map Prod.fst) <+: pairs := by
  induction pairs generalizing mod with
  | nil => exact List.nil_prefix
  | cons p t ih =>
    cases htd : Typedef.make cfg p.2 with
    | error e =>
      simp only [Container.runPairs, htd, List.map_nil]
      exact List.nil_prefix
    | ok tcfg =>
      cases mod with
      | none =>
        cases him : Container.importModule env (classOf tcfg) with
        | error e =>
          simp only [Container.runPairs, htd, him, List.map_nil]
          exact List.nil_prefix
        | ok m =>
          cases hga : getattrE m (leafOf (classOf tcfg)) with
          | error e =>
            simp only [Container.runPairs, htd, him, hga, List.map_nil]
            exact List.nil_prefix
          | ok cls =>
            simp only [Container.runPairs, htd, him, hga, List.map_cons]
            rw [List.cons_prefix_cons]
            exact ⟨rfl, ih (some m)⟩
      | some m =>
        cases hga : getattrE m (leafOf (classOf tcfg)) with
        | error e =>
          simp only [Container.runPairs, htd, hga, List.map_nil]
          exact List.nil_prefix
        | ok cls =>
          simp only [Container.runPairs, htd, hga, List.map_cons]
          rw [List.cons_prefix_cons]
          exact ⟨rfl, ih (some m)⟩

theorem runPairs_shorter (env : Env) (cfg : Config) (mod : Option Module)
    (pairs : List (Nat × String))
    (he : ((Container.runPairs env cfg mod pairs).2.2).isSome = true) :
    (Container.runPairs env cfg mod pairs).1.length < pairs.length := by
  induction pairs generalizing mod with
  | nil => simp [Container.runPairs] at he
  | cons p t ih =>
    cases htd : Typedef.make cfg p.2 with
    | error e =>
      simp only [Container.runPairs, htd, List.length_nil, List.length_cons]
      exact Nat.succ_pos _
    | ok tcfg =>
      cases mod with
      | none =>
        cases him : Container.importModule env (classOf tcfg) with
        | error e =>
          simp only [Container.runPairs, htd, him, List.length_nil, List.length_cons]
          exact Nat.succ_pos _
        | ok m =>
          cases hga : getattrE m (leafOf (classOf tcfg)) with
          | error e =>
            simp only [Container.runPairs, htd, him, hga, List.length_nil, List.length_cons]
            exact Nat.succ_pos _
          | ok cls =>
            simp only [Container.runPairs, htd, him, hga] at he ⊢
            rw [List.length_cons, List.length_cons]
            exact Nat.succ_lt_succ (ih (some m) he)
      | some m =>
        cases hga : getattrE m (leafOf (classOf tcfg)) with
        | error e =>
          simp only [Container.runPairs, htd, hga, List.length_nil, List.length_cons]
          exact Nat.succ_pos _
        | ok cls =>
          simp only [Container.runPairs, htd, hga] at he ⊢
          rw [List.length_cons, List.length_cons]
          exact Nat.succ_lt_succ (ih (some m) he)

theorem runPairs_modName (env : Env) (cfg : Config) (m : Module)
    (pairs : List (Nat × String)) :
    ∀ w ∈ (Container.runPairs env cfg (some m) pairs).1, w.2.modName = m.modName := by
  induction pairs with
  | nil =>
    intro w hw
    simp [Container.runPairs] at hw
  | cons p t ih =>
    intro w hw
    cases htd : Typedef.make cfg p.2 with
    | error e => simp [Container.runPairs, htd] at hw
    | ok tcfg =>
      cases hga : getattrE m (leafOf (classOf tcfg)) with
      | error e => simp [Container.runPairs, htd, hga] at hw
      | ok cls =>
        simp only [Container.runPairs, htd, hga, List.mem_cons] at hw
        rcases hw with he | hm
        · rw [he]
          exact getattrE_ok m _ cls hga
        · exact ih w hm

/-! Lemmas about declared roles, descriptor construction and listing. -/

theorem mem_flatPairs {l : List (Nat × List String)} {rt : Nat × String}
    (h : rt ∈ l.foldr (fun x acc => x.2.map (fun t => (x.1, t)) ++ acc) []) :
    ∃ x ∈ l, rt.1 = x.1 := by
  induction l with
  | nil => cases h
  | cons x t ih =>
    simp only [List.foldr_cons, List.mem_append] at h
    rcases h with hm | hm
    · rcases List.mem_map.mp hm with ⟨tt, _htt, he⟩
      exact ⟨x, List.mem_cons_self _ _, by rw [← he]⟩
    · rcases ih hm with ⟨y, hy, he⟩
      exact ⟨y, List.mem_cons_of_mem _ hy, he⟩

theorem types_role_mem (d : Descriptor) (x : Nat × List String) (h : x ∈ d.types) :
    x.1 ∈ ROLES := by
  simp only [Descriptor.types] at h
  rcases List.mem_filterMap.mp h with ⟨rp, hrp, hf⟩
  cases ha : alookup ((alookup d.cfg "types").getD []) rp.2 with
  | none => rw [ha] at hf; cases hf
  | some listed =>
    rw [ha] at hf
    cases hf
    exact List.mem_map.mpr ⟨rp, hrp, rfl⟩

theorem typePairs_role (d : Descriptor) : ∀ rt ∈ d.typePairs, rt.1 ∈ ROLES := by
  intro rt hrt
  unfold Descriptor.typePairs at hrt
  rcases mem_flatPairs hrt with ⟨x, hx, he⟩
  rw [he]
  exact types_role_mem d x hx

theorem loadDesc_role (env : Env) (nd : String × Descriptor) :
    ∀ w ∈ (Container.loadDesc env nd).1, w.1.1 ∈ ROLES := by
  intro w hw
  have h1 : w.1 ∈ (Container.loadDesc env nd).1.map Prod.fst :=
    List.mem_map.mpr ⟨w, hw, rfl⟩
  have h2 : w.1 ∈ nd.2.typePairs :=
    (runPairs_keys env nd.2.cfg (Container.loadModule env nd.1) nd.2.typePairs).subset h1
  exact typePairs_role nd.2 w.1 h2

theorem make_ok (n : String) (p : Except Err Config) (d : Descriptor)
    (h : Descriptor.make n p = .ok d) :
    p = .ok d.cfg ∧ validateDescriptor d.cfg = .ok () ∧ d.name = n := by
  cases hp : p with
  | error e => rw [hp] at h; simp only [Descriptor.make] at h; simp at h
  | ok cfg =>
    rw [hp] at h
    cases hv : validateDescriptor cfg with
    | error e => simp only [Descriptor.make, hv] at h; simp at h
    | ok u =>
      simp only [Descriptor.make, hv] at h
      cases h
      cases u
      exact ⟨rfl, hv, rfl⟩

theorem list_mem_valid (entries : List Entry) (nd : String × Descriptor)
    (h : nd ∈ Descriptor.list entries) :
    nd.2.enabled = true ∧ validateDescriptor nd.2.cfg = .ok () := by
  unfold Descriptor.list buildDescs at h
  rcases List.mem_filterMap.mp h with ⟨ne, _hne, hf⟩
  unfold buildDesc1 at hf
  cases hmk : Descriptor.make ne.1 ne.2.parsed with
  | error e => simp only [hmk] at hf; simp at hf
  | ok d =>
    simp only [hmk] at hf
    by_cases hen : d.enabled = true
    · rw [if_pos hen] at hf
      cases hf
      exact ⟨hen, (make_ok _ _ _ hmk).2.1⟩
    · rw [if_neg hen] at hf
      simp at hf

/-! Lemmas about the error log and the observable state sequence. -/

theorem descErrors_append (env : Env) (l1 l2 : List (String × Descriptor)) :
    Container.descErrors env (l1 ++ l2)
      = Container.descErrors env l1 ++ Container.descErrors env l2 := by
  induction l1 with
  | nil => rfl
  | cons nd t ih => simp [Container.descErrors, ih, List.append_assoc]

theorem descErrors_length (env : Env) (ds : List (String × Descriptor)) :
    (Container.descErrors env ds).length
      = (ds.filter (fun nd => ((Container.loadDesc env nd).2).isSome)).length := by
  induction ds with
  | nil => rfl
  | cons nd t ih =>
    cases he : (Container.loadDesc env nd).2 with
    | none => simp [Container.descErrors, he, List.filter_cons, ih]
    | some e => simp [Container.descErrors, he, List.filter_cons, ih]

theorem statesFrom_shape (env : Env) (s : CState) (ds : List (String × Descriptor)) :
    ∃ t, statesFrom env s ds = s :: t := by
  cases ds with
  | nil => exact ⟨[], rfl⟩
  | cons nd t2 => exact ⟨_, rfl⟩

theorem statesFrom_last (env : Env) (ds : List (String × Descriptor)) (s : CState) :
    (statesFrom env s ds).getLast? = some (ds.foldl (Container.applyDesc env) s) := by
  induction ds generalizing s with
  | nil => simp [statesFrom]
  | cons nd t ih =>
    rcases statesFrom_shape env (Container.applyDesc env s nd) t with ⟨tl, htl⟩
    show (s :: statesFrom env (Container.applyDesc env s nd) t).getLast? = _
    rw [htl, List.getLast?_cons_cons, ← htl, ih, List.foldl_cons]

/-! Lemmas about the extension filter. -/

theorem infixOf_iff (n : List Char) : ∀ h : List Char, (infixOf n h = true ↔ n <:+: h) := by
  intro h
  induction h with
  | nil =>
    simp only [infixOf]
    rw [List.isEmpty_iff, List.infix_nil]
  | cons c t ih =>
    simp only [infixOf, Bool.or_eq_true]
    rw [List.isPrefixOf_iff_prefix, ih, List.infix_cons_iff]

theorem selectName_iff (fn : String) :
    selectName fn = true ↔
      ('.' ∈ fn.toList
        ∧ ((fn.toList.dropWhile (fun c => c ≠ '.')).drop 1) <:+: (".conf".toList)) := by
  by_cases hd : '.' ∈ fn.toList
  · have hs : splitExt fn
        = some (String.mk (fn.toList.takeWhile (fun c => c ≠ '.')),
            String.mk ((fn.toList.dropWhile (fun c => c ≠ '.')).drop 1)) := by
      simp only [splitExt]
      rw [if_pos hd]
    simp only [selectName, hs, substrB]
    rw [show (String.mk ((fn.toList.dropWhile (fun c => c ≠ '.')).drop 1)).toList
        = (fn.toList.dropWhile (fun c => c ≠ '.')).drop 1 from rfl]
    rw [infixOf_iff]
    exact ⟨fun h2 => ⟨hd, h2⟩, fun h2 => h2.2⟩
  · have hs : splitExt fn = none := by
      simp only [splitExt]
      rw [if_neg hd]
    simp only [selectName, hs]
    constructor
    · intro h2; cases h2
    · intro h2; exact absurd h2.1 hd

theorem selEntry_snd (e : Entry) (p : String × Entry) (h : selEntry e = some p) :
    p.2 = e := by
  unfold selEntry at h
  cases hs : splitExt e.fname with
  | none =>
    simp only [hs] at h
    exact Option.noConfusion h
  | some nx =>
    simp only [hs] at h
    by_cases hsub : substrB nx.2 ".conf" = true
    · rw [if_pos hsub] at h
      by_cases hdir : e.isDir = true
      · rw [if_pos hdir] at h; cases h
      · rw [if_neg hdir] at h
        cases h
        rfl
    · rw [if_neg hsub] at h; cases h

/-! Sortedness of the directory scan. -/

theorem charLe_total (cs : List Char) : ∀ ds, charLe cs ds = true ∨ charLe ds cs = true := by
  induction cs with
  | nil =>
    intro ds
    exact Or.inl rfl
  | cons c cst ih =>
    intro ds
    cases ds with
    | nil => exact Or.inr rfl
    | cons d dst =>
      by_cases h1 : c.toNat < d.toNat
      · exact Or.inl (by simp [charLe, h1])
      · by_cases h2 : d.toNat < c.toNat
        · exact Or.inr (by simp [charLe, h2])
        · rcases ih dst with h | h
          · exact Or.inl (by simp [charLe, h1, h2, h])
          · exact Or.inr (by simp [charLe, h1, h2, h])

theorem charLe_trans (as2 : List Char) :
    ∀ bs cs, charLe as2 bs = true → charLe bs cs = true → charLe as2 cs = true := by
  induction as2 with
  | nil =>
    intro bs cs _ _
    rfl
  | cons a ast ih =>
    intro bs cs h1 h2
    cases bs with
    | nil => simp [charLe] at h1
    | cons b bst =>
      cases cs with
      | nil => simp [charLe] at h2
      | cons c cst =>
        by_cases hab1 : a.toNat < b.toNat
        · by_cases hbc1 : b.toNat < c.toNat
          · simp [charLe, Nat.lt_trans hab1 hbc1]
          · by_cases hbc2 : c.toNat < b.toNat
            · simp [charLe, hbc1, hbc2] at h2
            · have hbc : b.toNat = c.toNat :=
                Nat.le_antisymm (Nat.not_lt.mp hbc2) (Nat.not_lt.mp hbc1)
              simp [charLe, hbc ▸ hab1]
        · by_cases hab2 : b.toNat < a.toNat
          · simp [charLe, hab1, hab2] at h1
          · have hab : a.toNat = b.toNat :=
              Nat.le_antisymm (Nat.not_lt.mp hab2) (Nat.not_lt.mp hab1)
            by_cases hbc1 : b.toNat < c.toNat
            · simp [charLe, hab ▸ hbc1]
            · by_cases hbc2 : c.toNat < b.toNat
              · simp [charLe, hbc1, hbc2] at h2
              · have hbc : b.toNat = c.toNat :=
                  Nat.le_antisymm (Nat.not_lt.mp hbc2) (Nat.not_lt.mp hbc1)
                simp only [charLe, if_neg hab1, if_neg hab2] at h1
                simp only [charLe, if_neg hbc1, if_neg hbc2] at h2
                have hac1 : ¬a.toNat < c.toNat := by rw [hab, hbc]; exact Nat.lt_irrefl _
                have hac2 : ¬c.toNat < a.toNat := by rw [hab, hbc]; exact Nat.lt_irrefl _
                simp only [charLe, if_neg hac1, if_neg hac2]
                exact ih bst cst h1 h2

theorem strLe_trans (a b c : String) (h1 : strLe a b = true) (h2 : strLe b c = true) :
    strLe a c = true :=
  charLe_trans a.toList b.toList c.toList h1 h2

theorem strLe_of_not_strLe (a b : String) (h : ¬strLe a b = true) : strLe b a = true := by
  rcases charLe_total a.toList b.toList with h2 | h2
  · exact absurd h2 h
  · exact h2

theorem mem_insertEntry (e : Entry) (l : List Entry) (x : Entry)
    (h : x ∈ insertEntry e l) : x = e ∨ x ∈ l := by
  induction l with
  | nil =>
    rw [insertEntry] at h
    rcases List.mem_cons.mp h with he | hm
    · exact Or.inl he
    · cases hm
  | cons f fs ih =>
    rw [insertEntry] at h
    by_cases hle : strLe e.fname f.fname = true
    · rw [if_pos hle] at h
      rcases List.mem_cons.mp h with he | hm
      · exact Or.inl he
      · exact Or.inr hm
    · rw [if_neg hle] at h
      rcases List.mem_cons.mp h with he | hm
      · exact Or.inr (he ▸ List.mem_cons_self _ _)
      · rcases ih hm with h1 | h2
        · exact Or.inl h1
        · exact Or.inr (List.mem_cons_of_mem _ h2)

theorem pairwise_insertEntry (e : Entry) (l : List Entry)
    (h : List.Pairwise (fun a b => strLe a.fname b.fname = true) l) :
    List.Pairwise (fun a b => strLe a.fname b.fname = true) (insertEntry e l) := by
  induction l with
  | nil => simp [insertEntry]
  | cons f fs ih =>
    rw [insertEntry]
    by_cases hle : strLe e.fname f.fname = true
    · rw [if_pos hle, List.pairwise_cons]
      refine ⟨?_, h⟩
      intro x hx
      rcases List.mem_cons.mp hx with he | hm
      · rw [he]; exact hle
      · exact strLe_trans _ _ _ hle ((List.pairwise_cons.mp h).1 x hm)
    · rw [if_neg hle]
      rw [List.pairwise_cons] at h
      rw [List.pairwise_cons]
      refine ⟨?_, ih h.2⟩
      intro x hx
      rcases mem_insertEntry e fs x hx with he | hm
      · rw [he]; exact strLe_of_not_strLe _ _ hle
      · exact h.1 x hm

theorem pairwise_sortEntries (l : List Entry) :
    List.Pairwise (fun a b => strLe a.fname b.fname = true) (sortEntries l) := by
  induction l with
  | nil => exact List.Pairwise.nil
  | cons e t ih => exact pairwise_insertEntry e _ ih

theorem pairwise_filterMap_entries {β : Type} (g : Entry → Option β) (fn2 : β → String)
    (hg : ∀ e x, g e = some x → fn2 x = e.fname) (l : List Entry)
    (h : List.Pairwise (fun a b => strLe a.fname b.fname = true) l) :
    List.Pairwise (fun a b => strLe (fn2 a) (fn2 b) = true) (List.filterMap g l) := by
  induction l with
  | nil => exact List.Pairwise.nil
  | cons e t ih =>
    rw [List.pairwise_cons] at h
    rw [List.filterMap_cons]
    cases hge : g e with
    | none => exact ih h.2
    | some x =>
      rw [List.pairwise_cons]
      refine ⟨?_, ih h.2⟩
      intro y hy
      rcases List.mem_filterMap.mp hy with ⟨e2, he2, hge2⟩
      rw [hg e x hge, hg e2 y hge2]
      exact h.1 e2 he2

theorem scan_sorted (entries : List Entry) :
    List.Pairwise (fun a b => strLe a.2.fname b.2.fname = true) (Descriptor.scan entries) :=
  pairwise_filterMap_entries selEntry (fun p => p.2.fname)
    (fun e x hx => by
      show x.2.fname = e.fname
      rw [selEntry_snd e x hx]) (sortEntries entries)
    (pairwise_sortEntries entries)

/-! Skipping a failing descriptor file leaves the listing unchanged. -/

theorem make_error_of_descFails (b : Entry) (n : String) (h : descFails b = true) :
    ∃ e, Descriptor.make n b.parsed = .error e := by
  unfold descFails at h
  cases hp : b.parsed with
  | error e => exact ⟨e, rfl⟩
  | ok cfg =>
    rw [hp] at h
    cases hv : validateDescriptor cfg with
    | error e => exact ⟨e, by simp [Descriptor.make, hv]⟩
    | ok u =>
      have h2 : (match validateDescriptor cfg with
          | Except.error _ => true
          | Except.ok _ => false) = true := h
      rw [hv] at h2
      simp at h2

theorem buildDescs_skip_cons (n : String) (b : Entry) (hb : descFails b = true)
    (l : List (String × Entry)) :
    buildDescs ((n, b) :: l) = buildDescs l := by
  rcases make_error_of_descFails b n hb with ⟨e, he⟩
  unfold buildDescs
  rw [List.filterMap_cons]
  simp only [buildDesc1, he]

theorem scanBuild_insert_skip (b : Entry) (hb : descFails b = true) (l : List Entry) :
    buildDescs (List.filterMap selEntry (insertEntry b l))
      = buildDescs (List.filterMap selEntry l) := by
  induction l with
  | nil =>
    rw [insertEntry]
    cases hse : selEntry b with
    | none => simp only [List.filterMap_cons, hse, List.filterMap_nil]
    | some p =>
      simp only [List.filterMap_cons, hse, List.filterMap_nil]
      rw [show p = (p.1, b) from by rw [← selEntry_snd b p hse]]
      exact buildDescs_skip_cons p.1 b hb []
  | cons f fs ih =>
    rw [insertEntry]
    by_cases hle : strLe b.fname f.fname = true
    · rw [if_pos hle]
      cases hse : selEntry b with
      | none => simp only [List.filterMap_cons, hse]
      | some p =>
        simp only [List.filterMap_cons, hse]
        rw [show p = (p.1, b) from by rw [← selEntry_snd b p hse]]
        exact buildDescs_skip_cons p.1 b hb _
    · rw [if_neg hle]
      cases hsf : selEntry f with
      | none =>
        simp only [List.filterMap_cons, hsf]
        exact ih
      | some q =>
        simp only [List.filterMap_cons, hsf]
        cases hq : buildDesc1 q with
        | none =>
          unfold buildDescs
          rw [List.filterMap_cons, List.filterMap_cons, hq]
          exact ih
        | some r =>
          unfold buildDescs
          rw [List.filterMap_cons, List.filterMap_cons, hq]
          unfold buildDescs at ih
          rw [ih]

theorem list_skip_failing (b : Entry) (entries : List Entry) (hb : descFails b = true) :
    Descriptor.list (b :: entries) = Descriptor.list entries := by
  unfold Descriptor.list Descriptor.scan
  show buildDescs (List.filterMap selEntry (insertEntry b (sortEntries entries))) = _
  exact scanBuild_insert_skip b hb (sortEntries entries)

theorem lastVal_mem (ws : List ((Nat × String) × Handler)) (r : Nat) (t : String)
    (h : Handler) (hl : lastVal ws r t = some h) : ((r, t), h) ∈ ws := by
  induction ws with
  | nil => cases hl
  | cons w rest ih =>
    unfold lastVal at hl
    cases hlt : lastVal rest r t with
    | some h2 =>
      rw [hlt] at hl
      cases hl
      exact List.mem_cons_of_mem _ (ih hlt)
    | none =>
      rw [hlt] at hl
      by_cases hc : w.1 = (r, t)
      · rw [if_pos hc] at hl
        cases hl
        rw [← hc]
        exact List.mem_cons_self _ _
      · rw [if_neg hc] at hl
        cases hl

theorem findAt_applyWrites_nodup (hs : Handlers) (ws : List ((Nat × String) × Handler)) :
    (ws.map Prod.fst).Nodup → (∀ w ∈ ws, (alookup hs w.1.1).isSome = true) →
    ∀ w ∈ ws, findAt (applyWrites hs ws) w.1.2 w.1.1 = some w.2 := by
  induction ws generalizing hs with
  | nil =>
    intro _ _ w hw
    cases hw
  | cons w0 t ih =>
    intro hnd hps w hw
    rcases List.mem_cons.mp hw with he | hm
    · subst he
      have hnin : ∀ w2 ∈ t, w2.1 ≠ w.1 := by
        intro w2 hw2 heq
        exact (List.nodup_cons.mp (by
          rw [List.map_cons] at hnd
          exact hnd)).1 (List.mem_map.mpr ⟨w2, hw2, heq⟩)
      show findAt (applyWrites (setRole hs w.1.1 w.1.2 w.2) t) w.1.2 w.1.1 = some w.2
      rw [findAt_applyWrites_nowrite _ _ _ _ (fun w2 hw2 => hnin w2 hw2)]
      exact findAt_setRole_self hs w.1.1 w.1.2 w.2 (hps w (List.mem_cons_self _ _))
    · show findAt (applyWrites (setRole hs w0.1.1 w0.1.2 w0.2) t) w.1.2 w.1.1 = some w.2
      refine ih (setRole hs w0.1.1 w0.1.2 w0.2) ?_ ?_ w hm
      · rw [List.map_cons] at hnd
        exact (List.nodup_cons.mp hnd).2
      · intro w2 hw2
        rw [isSome_alookup_setRole]
        exact hps w2 (List.mem_cons_of_mem _ hw2)

/-! The claim theorems. -/

/-- C1 (amended): the fallback import is not performed independently per
type.  All handlers a descriptor constructs during one pass of
Container.__load share one module: the plugin module when one was found, else
the module imported for the first type that needed the fallback, which the
loop caches in the mod variable and reuses for every later type of the same
descriptor. -/
theorem c1_module_cached_per_descriptor
    (env : Env) (cfg : Config) (mod : Option Module) (pairs : List (Nat × String))
    (w w2 : (Nat × String) × Handler)
    (hw : w ∈ (Container.runPairs env cfg mod pairs).1)
    (hw2 : w2 ∈ (Container.runPairs env cfg mod pairs).1) :
    w.2.modName = w2.2.modName := by
  cases mod with
  | some m =>
    rw [runPairs_modName env cfg m pairs w hw, runPairs_modName env cfg m pairs w2 hw2]
  | none =>
    cases pairs with
    | nil => simp [Container.runPairs] at hw
    | cons p t =>
      cases htd : Typedef.make cfg p.2 with
      | error e => simp [Container.runPairs, htd] at hw
      | ok tcfg =>
        cases him : Container.importModule env (classOf tcfg) with
        | error e => simp [Container.runPairs, htd, him] at hw
        | ok m =>
          cases hga : getattrE m (leafOf (classOf tcfg)) with
          | error e => simp [Container.runPairs, htd, him, hga] at hw
          | ok cls =>
            simp only [Container.runPairs, htd, him, hga, List.mem_cons] at hw hw2
            have hv1 : w.2.modName = m.modName := by
              rcases hw with he | hmem
              · rw [he]
                exact getattrE_ok m _ cls hga
              · exact runPairs_modName env cfg m t w hmem
            have hv2 : w2.2.modName = m.modName := by
              rcases hw2 with he | hmem
              · rw [he]
                exact getattrE_ok m _ cls hga
              · exact runPairs_modName env cfg m t w2 hmem
            rw [hv1, hv2]

theorem c1_module_cached_witness :
    wC1a ∈ (Container.runPairs envC1 cfgC1 none [(1, "t1"), (1, "t2")]).1
    ∧ wC1b ∈ (Container.runPairs envC1 cfgC1 none [(1, "t1"), (1, "t2")]).1
    ∧ wC1a.2.modName = wC1b.2.modName :=
  ⟨by decide, by decide,
   c1_module_cached_per_descriptor envC1 cfgC1 none [(1, "t1"), (1, "t2")] wC1a wC1b
     (by decide) (by decide)⟩

/-- C2 (amended): errors() of a completed load has one entry per listed
(parsed, validated, enabled) descriptor whose handler loading failed; files
that fail INI parsing or schema validation are skipped with only a log line
and contribute no errors() entry.  A failing descriptor that registered
nothing leaves every other descriptor's handlers exactly as they would have
been without it. -/
theorem c2_error_count_and_isolation (env : Env) (s0 : CState) (entries : List Entry) :
    (Container.errors (Container.loadFrom env s0 entries)).length
      = ((Descriptor.list entries).filter
          (fun nd => ((Container.loadDesc env nd).2).isSome)).length
    ∧ (∀ ds1 nd ds2, Descriptor.list entries = ds1 ++ nd :: ds2 →
        (Container.loadDesc env nd).1 = [] →
        (Container.loadFrom env s0 entries).handlers
          = ((ds1 ++ ds2).foldl (Container.applyDesc env) resetState).handlers) := by
  constructor
  · show ((Descriptor.list entries).foldl (Container.applyDesc env) resetState).raised.length = _
    rw [raised_foldl]
    show ([] ++ Container.descErrors env (Descriptor.list entries)).length = _
    rw [List.nil_append, descErrors_length]
  · intro ds1 nd ds2 hsplit hnw
    show ((Descriptor.list entries).foldl (Container.applyDesc env) resetState).handlers = _
    rw [handlers_foldl, handlers_foldl, hsplit, List.foldl_append, List.foldl_append,
      List.foldl_cons, hnw]
    rfl

theorem c2_error_count_witness :
    (Container.errors (Container.loadFrom env0 sAny entriesC3a)).length
      = ((Descriptor.list entriesC3a).filter
          (fun nd => ((Container.loadDesc env0 nd).2).isSome)).length
    ∧ (Container.loadFrom env0 sAny entriesC3a).handlers
        = (([] ++ []).foldl (Container.applyDesc env0) resetState).handlers :=
  ⟨(c2_error_count_and_isolation env0 sAny entriesC3a).1,
   (c2_error_count_and_isolation env0 sAny entriesC3a).2 [] ndC3 [] (by decide) (by decide)⟩

/-- C3 (amended): the error log of the most recent load holds, in descriptor
processing order, the bare failure of every descriptor that failed; the
descriptor name is written to the log file only and is not part of the
errors() entries.  The log is rebuilt from empty on each load: the result is
the same whatever state the container was in before. -/
theorem c3_bare_errors_in_order (env : Env) (s0 : CState) (entries : List Entry) :
    Container.errors (Container.loadFrom env s0 entries)
      = Container.descErrors env (Descriptor.list entries) := by
  show ((Descriptor.list entries).foldl (Container.applyDesc env) resetState).raised = _
  rw [raised_foldl]
  rfl

/-- C8 (amended): load performs no generation swap.  It publishes the reset
(empty) state in place before processing any descriptor, then repopulates the
shared registry descriptor by descriptor; only the final state of the
observable sequence is the complete next generation, and a reader during the
sequence can observe the emptied registry, where every lookup is absent. -/
theorem c8_reset_then_populate (env : Env) (s0 : CState) (entries : List Entry) :
    (Container.loadTrace env s0 entries).get? 1 = some resetState
    ∧ (Container.loadTrace env s0 entries).getLast?
        = some (Container.loadFrom env s0 entries)
    ∧ (∀ tid role, Container.find resetState tid role = none) := by
  refine ⟨?_, ?_, ?_⟩
  · show (s0 :: statesFrom env resetState (Descriptor.list entries)).get? 1 = some resetState
    rcases statesFrom_shape env resetState (Descriptor.list entries) with ⟨t, ht⟩
    rw [ht]
    rfl
  · show (s0 :: statesFrom env resetState (Descriptor.list entries)).getLast? = _
    rcases statesFrom_shape env resetState (Descriptor.list entries) with ⟨t, ht⟩
    rw [ht, List.getLast?_cons_cons, ← ht, statesFrom_last]
    rfl
  · intro tid role
    exact findAt_reset tid role

/-- C4: the directory scan processes descriptor files in sorted filename
order, and when two enabled descriptors both declare the same (role, type_id)
and both load successfully, the registry after load holds the handler of the
descriptor that comes later in that order (the one whose filename sorts
last); the earlier registration is overwritten and nothing is appended to the
error log on account of the collision. -/
theorem c4_sorted_last_writer_wins
    (env : Env) (s0 : CState) (entries : List Entry)
    (ds1 ds2 ds3 : List (String × Descriptor)) (nd1 nd2 : String × Descriptor)
    (role : Nat) (tid : String) (h1 h2 : Handler)
    (hsplit : Descriptor.list entries = ds1 ++ nd1 :: (ds2 ++ nd2 :: ds3))
    (_hw1 : lastVal (Container.loadDesc env nd1).1 role tid = some h1)
    (hw2 : lastVal (Container.loadDesc env nd2).1 role tid = some h2)
    (he1 : (Container.loadDesc env nd1).2 = none)
    (he2 : (Container.loadDesc env nd2).2 = none)
    (hafter : ∀ nd ∈ ds3, ∀ w ∈ (Container.loadDesc env nd).1, w.1 ≠ (role, tid)) :
    List.Pairwise (fun a b => strLe a.2.fname b.2.fname = true) (Descriptor.scan entries)
    ∧ Container.find (Container.loadFrom env s0 entries) tid role = some h2
    ∧ (Container.loadFrom env s0 entries).raised
        = Container.descErrors env ds1 ++ Container.descErrors env ds2
          ++ Container.descErrors env ds3 := by
  have hrole : role ∈ ROLES :=
    loadDesc_role env nd2 ((role, tid), h2) (lastVal_mem _ role tid h2 hw2)
  have hshape : ds1 ++ nd1 :: (ds2 ++ nd2 :: ds3)
      = (ds1 ++ nd1 :: ds2) ++ nd2 :: ds3 := by
    rw [List.append_assoc, List.cons_append]
  refine ⟨scan_sorted entries, ?_, ?_⟩
  · show findAt ((Descriptor.list entries).foldl (Container.applyDesc env)
        resetState).handlers tid role = some h2
    rw [hsplit, hshape, List.foldl_append, List.foldl_cons]
    rw [findAt_foldl_nowrite env ds3 _ role tid hafter]
    show findAt (applyWrites ((ds1 ++ nd1 :: ds2).foldl (Container.applyDesc env)
        resetState).handlers (Container.loadDesc env nd2).1) tid role = some h2
    refine findAt_applyWrites_lastVal _ _ role tid h2 hw2 ?_
    rw [isSome_alookup_foldl]
    exact isSome_alookup_reset role hrole
  · show ((Descriptor.list entries).foldl (Container.applyDesc env) resetState).raised = _
    rw [raised_foldl, hsplit]
    show [] ++ Container.descErrors env (ds1 ++ nd1 :: (ds2 ++ nd2 :: ds3)) = _
    rw [List.nil_append, descErrors_append]
    show Container.descErrors env ds1
        ++ (((Container.loadDesc env nd1).2).toList
            ++ Container.descErrors env (ds2 ++ nd2 :: ds3)) = _
    rw [he1, descErrors_append]
    show Container.descErrors env ds1
        ++ ([] ++ (Container.descErrors env ds2
            ++ (((Container.loadDesc env nd2).2).toList
              ++ Container.descErrors env ds3))) = _
    rw [he2]
    simp

theorem c4_last_writer_witness :
    List.Pairwise (fun a b => strLe a.2.fname b.2.fname = true) (Descriptor.scan entriesC4)
    ∧ Container.find (Container.loadFrom envC4 sAny entriesC4) "rpm" CONTENT = some hC4b
    ∧ (Container.loadFrom envC4 sAny entriesC4).raised
        = Container.descErrors envC4 [] ++ Container.descErrors envC4 []
          ++ Container.descErrors envC4 [] :=
  c4_sorted_last_writer_wins envC4 sAny entriesC4 [] [] [] ndC4a ndC4b CONTENT "rpm"
    hC4a hC4b (by decide) (by decide) (by decide) (by decide) (by decide) (by decide)

/-- C5: every handler reachable from the registry after load was registered
by a descriptor that the directory listing yielded, hence one that parsed,
passed schema validation and was enabled; descriptors that were disabled or
failed validation are never listed and so contribute no registry entry. -/
theorem c5_registry_provenance
    (env : Env) (s0 : CState) (entries : List Entry) (role : Nat) (tid : String)
    (h : Handler)
    (hf : Container.find (Container.loadFrom env s0 entries) tid role = some h) :
    ∃ nd, nd ∈ Descriptor.list entries
      ∧ nd.2.enabled = true
      ∧ validateDescriptor nd.2.cfg = .ok ()
      ∧ ((role, tid), h) ∈ (Container.loadDesc env nd).1 := by
  have hf2 : findAt ((Descriptor.list entries).foldl (Container.applyDesc env)
      resetState).handlers tid role = some h := hf
  rcases findAt_foldl_some env _ resetState role tid h hf2 with ⟨nd, hm, hw⟩ | hbase
  · rcases list_mem_valid entries nd hm with ⟨hen, hva⟩
    exact ⟨nd, hm, hen, hva, hw⟩
  · rw [findAt_reset] at hbase
    exact Option.noConfusion hbase

theorem c5_registry_provenance_witness :
    ∃ nd, nd ∈ Descriptor.list entriesC8
      ∧ nd.2.enabled = true
      ∧ validateDescriptor nd.2.cfg = .ok ()
      ∧ ((CONTENT, "rpm"), hC8) ∈ (Container.loadDesc envC8 nd).1 :=
  c5_registry_provenance envC8 sAny entriesC8 CONTENT "rpm" hC8 (by decide)

/-- C6: the scan keeps a filename exactly when it contains a dot and the part
after the first dot is a substring of the literal ".conf" (python ext not in
".conf" is a substring test, not equality), so a.c, a.on and a.conf all
pass while a.conf.bak and aconf do not; directories are excluded
separately. -/
theorem c6_extension_substring_filter :
    (∀ e : Entry, (selEntry e).isSome = (selectName e.fname && !e.isDir))
    ∧ (∀ fn : String, selectName fn = true ↔
        ('.' ∈ fn.toList
          ∧ ((fn.toList.dropWhile (fun c => c ≠ '.')).drop 1) <:+: (".conf".toList)))
    ∧ selectName "a.c" = true ∧ selectName "a.on" = true ∧ selectName "a.conf" = true
    ∧ selectName "a.conf.bak" = false ∧ selectName "aconf" = false := by
  refine ⟨?_, selectName_iff, by decide, by decide, by decide, by decide, by decide⟩
  intro e
  unfold selEntry selectName
  cases hs : splitExt e.fname with
  | none => rfl
  | some nx =>
    cases hsub : substrB nx.2 ".conf" <;> cases hdir : e.isDir <;> simp [hsub, hdir]

/-- C7: a failure to list the descriptor root itself propagates uncaught out
of load to its caller, while load on a successfully listed directory always
completes; a file whose parse or schema validation fails is skipped by the
listing, leaving the descriptors obtained from the remaining files exactly
unchanged. -/
theorem c7_root_fatal_file_skipped
    (env : Env) (s0 : CState) (e : Err) (entries : List Entry) (b : Entry)
    (hb : descFails b = true) :
    Container.loadRoot env s0 (.error e) = .error e
    ∧ (∃ s, Container.loadRoot env s0 (.ok entries) = .ok s)
    ∧ Descriptor.list (b :: entries) = Descriptor.list entries :=
  ⟨rfl, ⟨Container.loadFrom env s0 entries, rfl⟩, list_skip_failing b entries hb⟩

theorem c7_root_fatal_witness :
    Container.loadRoot env0 sAny (.error (.osError "EACCES")) = .error (.osError "EACCES")
    ∧ (∃ s, Container.loadRoot env0 sAny (.ok entriesC8) = .ok s)
    ∧ Descriptor.list (badEntry :: entriesC8) = Descriptor.list entriesC8 :=
  c7_root_fatal_file_skipped env0 sAny (.osError "EACCES") entriesC8 badEntry (by decide)

/-- C9: for a role outside the defined enumeration, all raises the KeyError
of the role dict lookup while find returns absent for every type id: the two
read operations treat an unknown role asymmetrically. -/
theorem c9_unknown_role_asymmetry
    (env : Env) (s0 : CState) (entries : List Entry) (role : Nat) (tid : String)
    (hrole : role ∉ ROLES) :
    Container.all (Container.loadFrom env s0 entries) [role] = .error (.keyError role)
    ∧ Container.find (Container.loadFrom env s0 entries) tid role = none := by
  have hnone : alookup (Container.loadFrom env s0 entries).handlers role = none := by
    have h1 : (alookup (Container.loadFrom env s0 entries).handlers role).isSome
        = (alookup resetState.handlers role).isSome := by
      show (alookup ((Descriptor.list entries).foldl (Container.applyDesc env)
          resetState).handlers role).isSome = _
      exact isSome_alookup_foldl env _ resetState role
    rw [alookup_reset_none role hrole] at h1
    cases hx : alookup (Container.loadFrom env s0 entries).handlers role with
    | none => rfl
    | some m =>
      rw [hx] at h1
      simp at h1
  constructor
  · show Container.allH (Container.loadFrom env s0 entries).handlers [role] = _
    simp [Container.allH, hnone]
  · show findAt (Container.loadFrom env s0 entries).handlers tid role = none
    unfold findAt
    rw [hnone]

theorem c9_unknown_role_witness :
    Container.all (Container.loadFrom envC8 sAny entriesC8) [7] = .error (.keyError 7)
    ∧ Container.find (Container.loadFrom envC8 sAny entriesC8) "rpm" 7 = none :=
  c9_unknown_role_asymmetry envC8 sAny entriesC8 7 "rpm" (by decide)

/-- C10: processing one descriptor is not atomic.  When handler loading fails
partway, exactly one error is appended, the registry keeps exactly the
registrations made before the failure (a proper prefix of the declared
(role, type_id) pairs, in order), each of those handlers is found in the
resulting registry, and the remaining pairs are abandoned. -/
theorem c10_partial_registration_kept
    (env : Env) (s : CState) (nd : String × Descriptor)
    (hps : ∀ r2 ∈ ROLES, (alookup s.handlers r2).isSome = true)
    (hnd : nd.2.typePairs.Nodup)
    (he : ((Container.loadDesc env nd).2).isSome = true) :
    (Container.applyDesc env s nd).raised.length = s.raised.length + 1
    ∧ (Container.applyDesc env s nd).handlers
        = applyWrites s.handlers (Container.loadDesc env nd).1
    ∧ ((Container.loadDesc env nd).1.map Prod.fst) <+: nd.2.typePairs
    ∧ (Container.loadDesc env nd).1.length < nd.2.typePairs.length
    ∧ (∀ w ∈ (Container.loadDesc env nd).1,
        Container.find (Container.applyDesc env s nd) w.1.2 w.1.1 = some w.2) := by
  have hkeys : ((Container.loadDesc env nd).1.map Prod.fst) <+: nd.2.typePairs :=
    runPairs_keys env nd.2.cfg (Container.loadModule env nd.1) nd.2.typePairs
  refine ⟨?_, rfl, hkeys, ?_, ?_⟩
  · cases herr : (Container.loadDesc env nd).2 with
    | none => rw [herr] at he; cases he
    | some e2 => simp [Container.applyDesc, herr]
  · exact runPairs_shorter env nd.2.cfg (Container.loadModule env nd.1) nd.2.typePairs he
  · intro w hw
    show findAt (applyWrites s.handlers (Container.loadDesc env nd).1) w.1.2 w.1.1
        = some w.2
    refine findAt_applyWrites_nodup s.handlers (Container.loadDesc env nd).1
      (List.Nodup.sublist hkeys.sublist hnd) ?_ w hw
    intro w2 hw2
    exact hps w2.1.1 (loadDesc_role env nd w2 hw2)

theorem c10_partial_registration_witness :
    (Container.applyDesc env0 resetState ndC10).raised.length
        = resetState.raised.length + 1
    ∧ (Container.applyDesc env0 resetState ndC10).handlers
        = applyWrites resetState.handlers (Container.loadDesc env0 ndC10).1
    ∧ ((Container.loadDesc env0 ndC10).1.map Prod.fst) <+: ndC10.2.typePairs
    ∧ (Container.loadDesc env0 ndC10).1.length < ndC10.2.typePairs.length
    ∧ (∀ w ∈ (Container.loadDesc env0 ndC10).1,
        Container.find (Container.applyDesc env0 resetState ndC10) w.1.2 w.1.1
          = some w.2) :=
  c10_partial_registration_kept env0 resetState ndC10 (by decide) (by decide) (by decide)

end Pulp
